import Mathlib

/-!
Verification of the bugsnag-android ANR handler (anr_handler.c) and the
NDK path-builder utility (utils/path_builder.c), as a shallow embedding.

The C code is stateful and talks to the OS and the JVM through fallible
calls (JNI, semaphores, pthreads, sigaction).  Each such call's outcome is
an explicit input of the embedding (an environment record), the mutable
globals become an explicit state record, and externally observable actions
are collected in an event trace.
-/

set_option maxHeartbeats 1000000
set_option maxRecDepth 100000

namespace BugsnagAnr

/-- Outcome of the JavaVM GetEnv call as observed by notify_anr_detected:
JNI_OK, JNI_EDETACHED, or any other error code. -/
inductive GetEnvOutcome where
  | ok
  | edetached
  | err
deriving DecidableEq, Repr

/-- Environment of one notify_anr_detected call: the outcomes of the JNI
calls it makes, whether the host-binding globals (obj_plugin and
mthd_notify_anr_detected) were resolved at install time, and whether the
Java callback raises an exception. -/
structure NotifyEnv where
  getEnvResult : GetEnvOutcome
  attachOk : Bool
  objPluginSet : Bool
  mthdSet : Bool
  callbackThrows : Bool
deriving DecidableEq, Repr

/-- Externally observable actions of the ANR handler code. -/
inductive AnrEvent where
  | attach
  | detach
  | callNotify
  | clearException
  | googleCall
  | log
  | sleep (usec : Nat)
  | semWait
  | semPost
  | reblockSigquit
  | restoreOriginalHandler
  | setShouldReport
deriving DecidableEq, Repr

/-- Shallow embedding of notify_anr_detected (anr_handler.c:88-121).
Returns the trace of observable actions.  If enabled is false it returns
at once.  GetEnv: on JNI_OK proceed; on JNI_EDETACHED attach (log and
return on attach failure); otherwise log and return.  The callback is
invoked only when both obj_plugin and mthd_notify_anr_detected are
non-null; an exception from it is checked and cleared.  DetachCurrentThread
runs exactly when this call performed the attach. -/
def notify_anr_detected (enabled : Bool) (env : NotifyEnv) : List AnrEvent :=
  if enabled = false then []
  else
    match env.getEnvResult with
    | .ok =>
        if env.objPluginSet && env.mthdSet then
          .callNotify :: (if env.callbackThrows then [.clearException] else [])
        else []
    | .edetached =>
        if env.attachOk then
          .attach ::
            ((if env.objPluginSet && env.mthdSet then
                .callNotify :: (if env.callbackThrows then [.clearException] else [])
              else []) ++ [.detach])
        else [.log]
    | .err => [.log]

/-- Environment of one watchdog-thread run: the enabled flag read when the
thread performs its cycle, the notify environment, the wake strategy
selected at install time, whether sem_wait fails, and the value of the
volatile should_report_anr flag at each iteration of the polling loop. -/
structure WatchdogEnv where
  enabled : Bool
  notifyEnv : NotifyEnv
  shouldWaitForSemaphore : Bool
  semWaitFails : Bool
  flag : Nat → Bool

/-- The polling fallback loop of sigquit_watchdog_thread_main:
while (!should_report_anr) usleep(delay_100ms).  env reads the flag once
per iteration; the loop performs one 100ms sleep per false read and stops
at the first true read. -/
def poll_loop (flag : Nat → Bool) (h : ∃ t, flag t = true) : List AnrEvent :=
  List.replicate (Nat.find h) (.sleep 100000)

/-- The wait phase of sigquit_watchdog_thread_main (anr_handler.c:130-134):
if (!should_wait_for_semaphore || sem_wait(&sem) != 0) poll.  sem_wait is
only called when should_wait_for_semaphore is true; the polling loop runs
when it was not called or when it failed. -/
def watchdog_wait (env : WatchdogEnv) (h : ∃ t, env.flag t = true) : List AnrEvent :=
  if env.shouldWaitForSemaphore then
    if env.semWaitFails then .semWait :: poll_loop env.flag h
    else [.semWait]
  else poll_loop env.flag h

/-- The remainder of the watchdog cycle after the wait phase
(anr_handler.c:138-149): 10ms settle sleep, notify_anr_detected,
bsg_google_anr_call, 2s grace sleep, thread exit.  bsg_google_anr_call
lives in anr_google.c and is opaque here: it is the single re-trigger of
the original handler chain. -/
def watchdog_cycle_rest (env : WatchdogEnv) : List AnrEvent :=
  .sleep 10000 ::
    (notify_anr_detected env.enabled env.notifyEnv ++ [.googleCall, .sleep 2000000])

/-- Shallow embedding of sigquit_watchdog_thread_main (anr_handler.c:123-150). -/
def sigquit_watchdog_thread_main (env : WatchdogEnv) (h : ∃ t, env.flag t = true) :
    List AnrEvent :=
  watchdog_wait env h ++ watchdog_cycle_rest env

/-- Shallow embedding of handle_sigquit (anr_handler.c:152-171).  Takes the
wake-strategy flag (which the handler never reads) and whether sem_post
fails; returns the action trace and the new value of should_report_anr.
The handler re-blocks SIGQUIT, restores the saved original disposition,
sets should_report_anr, and posts the semaphore, logging (only) on a post
failure. -/
def handle_sigquit (shouldWaitForSemaphore : Bool) (semPostFails : Bool)
    (shouldReportAnr : Bool) : List AnrEvent × Bool :=
  ([.reblockSigquit, .restoreOriginalHandler, .setShouldReport] ++
      (if semPostFails then [.semPost, .log] else [.semPost]),
   true)

/-- The mutable globals of anr_handler.c that install/uninstall touch.
setupCalls counts invocations of install_signal_handler (the structural
one-time setup: semaphore, watchdog thread, sigaction). -/
structure AnrState where
  enabled : Bool
  installed : Bool
  bsgJvmSet : Bool
  mthdSet : Bool
  objPluginSet : Bool
  shouldWaitForSemaphore : Bool
  watchdogStarted : Bool
  sigquitHandlerSet : Bool
  originalHandlerSaved : Bool
  setupCalls : Nat
deriving DecidableEq, Repr

/-- The zero-initialized state of the globals at process start. -/
def anrInitState : AnrState :=
  { enabled := false, installed := false, bsgJvmSet := false, mthdSet := false,
    objPluginSet := false, shouldWaitForSemaphore := false, watchdogStarted := false,
    sigquitHandlerSet := false, originalHandlerSaved := false, setupCalls := 0 }

/-- Environment of one bsg_handler_install_anr call: nullness of the
arguments and the outcomes of the fallible platform calls made during
installation. -/
structure InstallEnv where
  envNonNull : Bool
  getJavaVMOk : Bool
  findClassOk : Bool
  getMethodOk : Bool
  pluginNonNull : Bool
  googleInitOk : Bool
  semInitOk : Bool
  threadCreateOk : Bool
  sigactionOk : Bool
  sigmaskOk : Bool
deriving DecidableEq, Repr

/-- Shallow embedding of configure_anr_jni (anr_handler.c:68-86): returns
false on a null env, a GetJavaVM failure, or a FindClass failure; on the
FindClass success path it stores the method id (null when GetMethodID
fails) and returns true. -/
def configure_anr_jni (st : AnrState) (env : InstallEnv) : Bool × AnrState :=
  if env.envNonNull = false then (false, st)
  else if env.getJavaVMOk = false then (false, st)
  else
    let st1 := { st with bsgJvmSet := true }
    if env.findClassOk = false then (false, st1)
    else (true, { st1 with mthdSet := env.getMethodOk })

/-- The sem_init step of install_signal_handler: should_wait_for_semaphore
is set on success, with a log-only failure path.  setupCalls records that
the structural one-time setup ran. -/
def anr_setup_sem (st : AnrState) (env : InstallEnv) : AnrState :=
  if env.semInitOk then
    { st with setupCalls := st.setupCalls + 1, shouldWaitForSemaphore := true }
  else { st with setupCalls := st.setupCalls + 1 }

/-- Shallow embedding of install_signal_handler (anr_handler.c:173-214):
google-caller setup (log-only on failure), sem_init (sets
should_wait_for_semaphore on success), pthread_create (early return on
failure), sigaction install saving the original disposition (early return
on failure), and the final SIGQUIT unblock (log-only on failure). -/
def install_signal_handler (st : AnrState) (env : InstallEnv) : AnrState :=
  if env.threadCreateOk = false then anr_setup_sem st env
  else if env.sigactionOk = false then
    { anr_setup_sem st env with watchdogStarted := true }
  else
    { anr_setup_sem st env with
        watchdogStarted := true
        sigquitHandlerSet := true
        originalHandlerSaved := true }

/-- Shallow embedding of bsg_handler_install_anr (anr_handler.c:216-227).
Under the config lock: if not installed, configure the JNI binding (its
side effects happen even when the conjunction fails later), and when the
binding resolves and the plugin is non-null, take the global reference,
run install_signal_handler and mark installed.  In every case set
enabled = true and return true. -/
def bsg_handler_install_anr (st : AnrState) (env : InstallEnv)
    (ignoreCallPreviousSigquitHandler : Bool) : Bool × AnrState :=
  if st.installed = false then
    if (configure_anr_jni st env).1 && env.pluginNonNull then
      (true,
        { install_signal_handler
            { (configure_anr_jni st env).2 with objPluginSet := true } env with
          installed := true, enabled := true })
    else (true, { (configure_anr_jni st env).2 with enabled := true })
  else (true, { st with enabled := true })

/-- Shallow embedding of bsg_handler_uninstall_anr (anr_handler.c:229-233):
under the config lock, set enabled = false. -/
def bsg_handler_uninstall_anr (st : AnrState) : AnrState :=
  { st with enabled := false }

/-- One call of the public install/uninstall interface. -/
inductive AnrCall where
  | install (env : InstallEnv) (ignoreCallPreviousSigquitHandler : Bool)
  | uninstall
deriving Repr

/-- Apply one interface call to the global state. -/
def anrStep (st : AnrState) : AnrCall → AnrState
  | .install env flag => (bsg_handler_install_anr st env flag).2
  | .uninstall => bsg_handler_uninstall_anr st

/-- Run a sequence of interface calls. -/
def anrRun (st : AnrState) (calls : List AnrCall) : AnrState :=
  calls.foldl anrStep st

/-- Whether the last call of a sequence is an install. -/
def lastIsInstall : List AnrCall → Bool
  | [] => false
  | [AnrCall.install _ _] => true
  | [AnrCall.uninstall] => false
  | _ :: c :: cs => lastIsInstall (c :: cs)

/-- Selects the two handoff events of the watchdog cycle: the host
notification call and the Google chain re-trigger. -/
def notifyOrGoogle (e : AnrEvent) : Bool :=
  e == AnrEvent.callNotify || e == AnrEvent.googleCall

/-- A fully resolved notify environment in which this call performs the
attach: GetEnv reports JNI_EDETACHED and AttachCurrentThread succeeds. -/
def notifyEnvA : NotifyEnv :=
  { getEnvResult := .edetached, attachOk := true, objPluginSet := true,
    mthdSet := true, callbackThrows := false }

/-- A watchdog environment using the semaphore strategy with the flag
already set. -/
def watchdogEnvSem : WatchdogEnv :=
  { enabled := true, notifyEnv := notifyEnvA, shouldWaitForSemaphore := true,
    semWaitFails := false, flag := fun _ => true }

/-- A watchdog environment forced onto the polling fallback with the flag
already set. -/
def watchdogEnvPoll : WatchdogEnv :=
  { enabled := true, notifyEnv := notifyEnvA, shouldWaitForSemaphore := false,
    semWaitFails := false, flag := fun _ => true }

end BugsnagAnr

namespace PathBuilder

/-! Shallow embedding of utils/path_builder.c.  The fixed char buffer
g_path.path becomes a list of PATH_SIZE + PATH_SIZE_PADDING characters and
the segment pointers become offsets into it.  Every store into the buffer
goes through List.set; each operation additionally returns the list of
buffer indices it stored to, so that absence of out-of-bounds writes is a
provable property of the trace. -/

def MAX_SUBPATHS : Nat := 100

def PATH_SIZE : Nat := 500

def PATH_SIZE_PADDING : Nat := 100

/-- sizeof(g_path.path) = PATH_SIZE + PATH_SIZE_PADDING. -/
def PATH_TOTAL : Nat := PATH_SIZE + PATH_SIZE_PADDING

/-- The C string terminator. -/
def nullc : Char := Char.ofNat 0

/-- The path_builder struct of path_builder.c. -/
structure path_builder where
  path : List Char
  subpaths : List Nat
  subpath_level : Nat
deriving DecidableEq, Repr

/-- The zero-initialized C global g_path. -/
def g_path_zero : path_builder :=
  { path := List.replicate PATH_TOTAL nullc,
    subpaths := List.replicate MAX_SUBPATHS 0,
    subpath_level := 0 }

/-- available_byte_count: bytes from the given offset to the end of the
padded buffer (g_path.path + sizeof(g_path.path) - subpath). -/
def available_byte_count (subpath : Nat) : Nat := PATH_TOTAL - subpath

/-- Store a run of characters at consecutive offsets. -/
def writeChars : List Char → Nat → List Char → List Char
  | p, _, [] => p
  | p, off, c :: cs => writeChars (p.set off c) (off + 1) cs

/-- The buffer indices stored to by a run of length n starting at off. -/
def writeIdxs : Nat → Nat → List Nat
  | _, 0 => []
  | off, n + 1 => off :: writeIdxs (off + 1) n

/-- C strlen: number of characters before the first null. -/
def cstrlen : List Char → Nat
  | [] => 0
  | c :: cs => if c = nullc then 0 else cstrlen cs + 1

/-- The observable C string content of the buffer: characters before the
first null. -/
def cstr : List Char → List Char
  | [] => []
  | c :: cs => if c = nullc then [] else c :: cstr cs

/-- strlen starting at an offset into the buffer. -/
def cstrlenFrom (p : List Char) (off : Nat) : Nat := cstrlen (p.drop off)

/-- The characters a bounded string copy stores: the source C string
truncated to dst_size - 1 characters, plus the terminator. -/
def strncpyChars (src : List Char) (dst_size : Nat) : List Char :=
  (src.takeWhile (fun c => c != nullc)).take (dst_size - 1) ++ [nullc]

/-- Modelled from the spec: bsg_strncpy_safe lives in
bugsnag-plugin-android-ndk/src/main/jni/utils/string.c, which is not among
the provided sources.  Per the spec's contract for the path-building
utility (copy a key segment, "must reject/no-op rather than overflow"), it
copies at most dst_size - 1 characters of the source C string to the
destination offset and always stores a terminating null within dst_size
bytes; it stores nothing when dst_size is 0. -/
def bsg_strncpy_safe (p : List Char) (off : Nat) (src : List Char)
    (dst_size : Nat) : List Char :=
  if dst_size = 0 then p else writeChars p off (strncpyChars src dst_size)

/-- The indices bsg_strncpy_safe stores to. -/
def strncpyTrace (off : Nat) (src : List Char) (dst_size : Nat) : List Nat :=
  if dst_size = 0 then [] else writeIdxs off (strncpyChars src dst_size).length

/-- Decimal digit character (values 0-9 map to characters 48-57). -/
def decChar (d : Nat) : Char := Char.ofNat (48 + d % 10)

/-- Decimal representation of a natural number. -/
def natDecChars (n : Nat) : List Char :=
  if n = 0 then ['0'] else ((Nat.digits 10 n).map decChar).reverse

/-- Reduction of a mathematical integer to the int64_t value it denotes. -/
def toInt64 (value : Int) : Int := (value + 2 ^ 63) % 2 ^ 64 - 2 ^ 63

/-- Modelled from the spec: bsg_int64_to_string lives in
bugsnag-plugin-android-ndk/src/main/jni/utils/number_to_string.c, which is
not among the provided sources.  Per the spec's contract for the
path-building utility (push a list-index segment), it renders the int64
value in decimal.  These are the characters it stores before the
terminating null; its return value is their count. -/
def int64_chars (value : Int) : List Char :=
  if toInt64 value < 0 then '-' :: natDecChars (toInt64 value).natAbs
  else natDecChars (toInt64 value).toNat

/-- The buffer content after bsg_int64_to_string stores the digits and a
terminating null at the given offset. -/
def bsg_int64_to_string (value : Int) (p : List Char) (off : Nat) : List Char :=
  writeChars p off (int64_chars value ++ [nullc])

/-- subpath_begin (path_builder.c:27-41): returns none when the segment
stack is full (subpath_level >= MAX_SUBPATHS - 1) or the current offset has
reached PATH_SIZE; otherwise stores a dot separator when below a non-root
level and returns the updated builder, the offset at which the new segment
content starts, and the store trace. -/
def subpath_begin (g : path_builder) : Option (path_builder × Nat × List Nat) :=
  if MAX_SUBPATHS - 1 ≤ g.subpath_level then none
  else if PATH_SIZE ≤ g.subpaths.getD g.subpath_level 0 then none
  else if 0 < g.subpath_level then
    some ({ g with path := g.path.set (g.subpaths.getD g.subpath_level 0) '.' },
      g.subpaths.getD g.subpath_level 0 + 1,
      [g.subpaths.getD g.subpath_level 0])
  else some (g, g.subpaths.getD g.subpath_level 0, [])

/-- subpath_end (path_builder.c:43-47): stores the terminator at the end
offset, bumps the level and records the new top offset.  (Its single store
index, the end offset, is appended to the trace by each caller.) -/
def subpath_end (g : path_builder) (subpath : Nat) : path_builder :=
  { g with path := g.path.set subpath nullc,
           subpath_level := g.subpath_level + 1,
           subpaths := g.subpaths.set (g.subpath_level + 1) subpath }

/-- bsg_pb_reset (path_builder.c:49-53). -/
def bsg_pb_reset (g : path_builder) : path_builder × List Nat :=
  ({ g with path := g.path.set 0 nullc,
            subpaths := g.subpaths.set 0 0,
            subpath_level := 0 }, [0])

/-- bsg_pb_stack_map_key (path_builder.c:55-63): begin a segment, copy the
key with bsg_strncpy_safe bounded by available_byte_count, advance by
strlen of the copied segment, and end the segment there. -/
def bsg_pb_stack_map_key (key : List Char) (g : path_builder) :
    path_builder × List Nat :=
  match subpath_begin g with
  | none => (g, [])
  | some (g1, subpath, tr1) =>
      (subpath_end
          { g1 with
              path := bsg_strncpy_safe g1.path subpath key (available_byte_count subpath) }
          (subpath +
            cstrlenFrom
              (bsg_strncpy_safe g1.path subpath key (available_byte_count subpath)) subpath),
       tr1 ++ strncpyTrace subpath key (available_byte_count subpath) ++
         [subpath +
           cstrlenFrom
             (bsg_strncpy_safe g1.path subpath key (available_byte_count subpath)) subpath])

/-- bsg_pb_stack_list_index (path_builder.c:65-72): begin a segment, store
the decimal rendering of the index (unbounded: the padding absorbs it),
advance by the digit count returned, and end the segment there. -/
def bsg_pb_stack_list_index (index : Int) (g : path_builder) :
    path_builder × List Nat :=
  match subpath_begin g with
  | none => (g, [])
  | some (g1, subpath, tr1) =>
      (subpath_end { g1 with path := bsg_int64_to_string index g1.path subpath }
          (subpath + (int64_chars index).length),
       tr1 ++ writeIdxs subpath ((int64_chars index).length + 1) ++
         [subpath + (int64_chars index).length])

/-- bsg_pb_stack_new_list_entry (path_builder.c:74-80). -/
def bsg_pb_stack_new_list_entry (g : path_builder) : path_builder × List Nat :=
  match subpath_begin g with
  | none => (g, [])
  | some (g1, subpath, tr1) => (subpath_end g1 subpath, tr1 ++ [subpath])

/-- bsg_pb_unstack (path_builder.c:82-90): a no-op at level 0; otherwise
pop one level and truncate the string at the popped offset. -/
def bsg_pb_unstack (g : path_builder) : path_builder × List Nat :=
  if g.subpath_level = 0 then (g, [])
  else
    ({ g with subpath_level := g.subpath_level - 1,
              path := g.path.set (g.subpaths.getD (g.subpath_level - 1) 0) nullc },
     [g.subpaths.getD (g.subpath_level - 1) 0])

/-- bsg_pb_path (path_builder.c:92): the current path string. -/
def bsg_pb_path (g : path_builder) : List Char := cstr g.path

/-- One call of the path-builder interface. -/
inductive PBOp where
  | map_key (key : List Char)
  | list_index (index : Int)
  | new_list_entry
  | unstack
  | reset
deriving Repr

/-- The push operations among the interface calls. -/
def isPush : PBOp → Bool
  | .map_key _ => true
  | .list_index _ => true
  | .new_list_entry => true
  | _ => false

/-- Apply one interface call. -/
def pbStep (g : path_builder) : PBOp → path_builder × List Nat
  | .map_key k => bsg_pb_stack_map_key k g
  | .list_index i => bsg_pb_stack_list_index i g
  | .new_list_entry => bsg_pb_stack_new_list_entry g
  | .unstack => bsg_pb_unstack g
  | .reset => bsg_pb_reset g

/-- Run a sequence of interface calls, accumulating the store trace. -/
def pbRun (g : path_builder) : List PBOp → path_builder × List Nat
  | [] => (g, [])
  | op :: ops =>
      ((pbRun (pbStep g op).1 ops).1, (pbStep g op).2 ++ (pbRun (pbStep g op).1 ops).2)

/-- The builder state right after bsg_pb_reset on the zero-initialized
global. -/
def pbResetState : path_builder := (bsg_pb_reset g_path_zero).1

/-- The offset of the current segment stack top: where the terminating
null of the current path lives. -/
def topOff (g : path_builder) : Nat := g.subpaths.getD g.subpath_level 0

/-- The well-formedness invariant of the builder state: buffer and stack
have their declared sizes, the level is in range, the stacked offsets are
monotone with the top in range, and the top offset is exactly the position
of the terminating null of the path string. -/
def Inv (g : path_builder) : Prop :=
  g.path.length = PATH_TOTAL ∧
  g.subpaths.length = MAX_SUBPATHS ∧
  g.subpath_level < MAX_SUBPATHS ∧
  (∀ j < g.subpath_level + 1, ∀ i < j + 1,
      g.subpaths.getD i 0 ≤ g.subpaths.getD j 0) ∧
  topOff g < PATH_TOTAL ∧
  (∀ j < topOff g, g.path.getD j nullc ≠ nullc) ∧
  g.path.getD (topOff g) nullc = nullc

/-- A well-formed state whose path has already reached PATH_SIZE: 500
non-null characters followed by the terminator. -/
def pbFullState : path_builder :=
  { path := List.replicate PATH_SIZE 'a' ++ List.replicate PATH_SIZE_PADDING nullc,
    subpaths := (List.replicate MAX_SUBPATHS 0).set 0 PATH_SIZE,
    subpath_level := 0 }

instance decidableInv (g : path_builder) : Decidable (Inv g) := by
  unfold Inv topOff
  infer_instance

end PathBuilder

namespace BugsnagAnr

/-! Helper lemmas about the ANR model. -/

theorem install_fst_true (st : AnrState) (env : InstallEnv) (b : Bool) :
    (bsg_handler_install_anr st env b).1 = true := by
  unfold bsg_handler_install_anr
  split
  · split <;> rfl
  · rfl

theorem install_snd_enabled (st : AnrState) (env : InstallEnv) (b : Bool) :
    (bsg_handler_install_anr st env b).2.enabled = true := by
  unfold bsg_handler_install_anr
  split
  · split <;> rfl
  · rfl

theorem install_installed_mono (st : AnrState) (env : InstallEnv) (b : Bool)
    (h : st.installed = true) :
    (bsg_handler_install_anr st env b).2.installed = true := by
  unfold bsg_handler_install_anr
  split
  · next hne => rw [h] at hne; exact absurd hne (by simp)
  · exact h

theorem anrStep_installed_mono (st : AnrState) (c : AnrCall)
    (h : st.installed = true) : (anrStep st c).installed = true := by
  cases c with
  | install env b => exact install_installed_mono st env b h
  | uninstall => exact h

theorem anrStep_enabled (st : AnrState) (c : AnrCall) :
    (anrStep st c).enabled = lastIsInstall [c] := by
  cases c with
  | install env b => exact install_snd_enabled st env b
  | uninstall => rfl

theorem anrRun_enabled (calls : List AnrCall) : ∀ st : AnrState,
    (anrRun st calls).enabled =
      (if calls.isEmpty then st.enabled else lastIsInstall calls) := by
  induction calls with
  | nil => intro st; rfl
  | cons c cs ih =>
    intro st
    have hrun : anrRun st (c :: cs) = anrRun (anrStep st c) cs := rfl
    rw [hrun, ih (anrStep st c)]
    cases cs with
    | nil => simpa using anrStep_enabled st c
    | cons c2 cs2 => cases c <;> simp [lastIsInstall]

theorem configure_setup_unchanged (st : AnrState) (env : InstallEnv) :
    (configure_anr_jni st env).2.setupCalls = st.setupCalls ∧
      (configure_anr_jni st env).2.installed = st.installed := by
  unfold configure_anr_jni
  split <;> [exact ⟨rfl, rfl⟩; skip]
  split <;> [exact ⟨rfl, rfl⟩; skip]
  split <;> exact ⟨rfl, rfl⟩

theorem installer_setup_succ (st : AnrState) (env : InstallEnv) :
    (install_signal_handler st env).setupCalls = st.setupCalls + 1 := by
  unfold install_signal_handler anr_setup_sem
  repeat' split
  all_goals rfl

/-- The one-shot invariant: setupCalls is 0 while not installed, and never
exceeds 1. -/
def SetupInv (st : AnrState) : Prop :=
  (st.installed = false → st.setupCalls = 0) ∧ st.setupCalls ≤ 1

theorem anrStep_setup_inv (st : AnrState) (c : AnrCall) (h : SetupInv st) :
    SetupInv (anrStep st c) := by
  obtain ⟨h0, h1⟩ := h
  cases c with
  | uninstall => exact ⟨h0, h1⟩
  | install env b =>
    show SetupInv (bsg_handler_install_anr st env b).2
    unfold bsg_handler_install_anr
    split
    · next hni =>
      have hz : st.setupCalls = 0 := h0 hni
      obtain ⟨hc1, hc2⟩ := configure_setup_unchanged st env
      split
      · constructor
        · intro hcontra; exact absurd hcontra (by simp)
        · show (install_signal_handler
              { (configure_anr_jni st env).2 with objPluginSet := true } env).setupCalls ≤ 1
          rw [installer_setup_succ]
          show (configure_anr_jni st env).2.setupCalls + 1 ≤ 1
          omega
      · constructor
        · intro _
          show (configure_anr_jni st env).2.setupCalls = 0
          rw [hc1]; exact hz
        · show (configure_anr_jni st env).2.setupCalls ≤ 1
          omega
    · exact ⟨fun _ => h0 (by assumption), h1⟩

theorem anrRun_setup_inv (calls : List AnrCall) : ∀ st : AnrState,
    SetupInv st → SetupInv (anrRun st calls) := by
  induction calls with
  | nil => intro st h; exact h
  | cons c cs ih => intro st h; exact ih (anrStep st c) (anrStep_setup_inv st c h)

theorem notify_props (b : Bool) (env : NotifyEnv) :
    ((notify_anr_detected b env).count AnrEvent.callNotify ≤ 1) ∧
      ((notify_anr_detected b env).count AnrEvent.callNotify = 1 → b = true) ∧
      (AnrEvent.googleCall ∉ notify_anr_detected b env) ∧
      ((notify_anr_detected b env).filter notifyOrGoogle =
        if (notify_anr_detected b env).count AnrEvent.callNotify = 1
        then [AnrEvent.callNotify] else []) ∧
      (∀ d, AnrEvent.sleep d ∉ notify_anr_detected b env) ∧
      (AnrEvent.semWait ∉ notify_anr_detected b env) := by
  rcases env with ⟨ge, a, o, m, cb⟩
  cases ge <;> cases a <;> cases o <;> cases m <;> cases cb <;> cases b <;>
    refine ⟨by decide, by decide, by decide, by decide, fun d => ?_, by decide⟩ <;>
    simp [notify_anr_detected]

theorem wait_neutral (env : WatchdogEnv) (h : ∃ t, env.flag t = true) :
    ∀ e ∈ watchdog_wait env h, e = AnrEvent.semWait ∨ ∃ d, e = AnrEvent.sleep d := by
  intro e he
  unfold watchdog_wait poll_loop at he
  split at he
  · split at he
    · rcases List.mem_cons.mp he with h1 | h2
      · exact Or.inl h1
      · exact Or.inr ⟨100000, List.eq_of_mem_replicate h2⟩
    · rw [List.mem_singleton] at he
      exact Or.inl he
  · exact Or.inr ⟨100000, List.eq_of_mem_replicate he⟩

theorem wait_count_zero (env : WatchdogEnv) (h : ∃ t, env.flag t = true)
    (e : AnrEvent) (h1 : e ≠ AnrEvent.semWait) (h2 : ∀ d, e ≠ AnrEvent.sleep d) :
    (watchdog_wait env h).count e = 0 := by
  rw [List.count_eq_zero]
  intro hm
  rcases wait_neutral env h e hm with h3 | ⟨d, h3⟩
  · exact h1 h3
  · exact h2 d h3

theorem wait_filter_nil (env : WatchdogEnv) (h : ∃ t, env.flag t = true) :
    (watchdog_wait env h).filter notifyOrGoogle = [] := by
  rw [List.filter_eq_nil_iff]
  intro e hm
  rcases wait_neutral env h e hm with h3 | ⟨d, h3⟩ <;> subst h3 <;>
    simp [notifyOrGoogle]

/-- Claim C1: in one watchdog report cycle
(sigquit_watchdog_thread_main), the host notification is attempted at most
once and only when enabled is true; bsg_google_anr_call runs exactly once
whether or not the notification was skipped (disabled or unresolved
binding) or failed; and the notification, when it happens, strictly
precedes the chain re-trigger. -/
theorem claim_C1_watchdog_cycle (env : WatchdogEnv) (h : ∃ t, env.flag t = true) :
    ((sigquit_watchdog_thread_main env h).count AnrEvent.callNotify ≤ 1) ∧
      ((sigquit_watchdog_thread_main env h).count AnrEvent.callNotify = 1 →
        env.enabled = true) ∧
      ((sigquit_watchdog_thread_main env h).count AnrEvent.googleCall = 1) ∧
      ((sigquit_watchdog_thread_main env h).filter notifyOrGoogle =
        if (sigquit_watchdog_thread_main env h).count AnrEvent.callNotify = 1
        then [AnrEvent.callNotify, AnrEvent.googleCall] else [AnrEvent.googleCall]) := by
  obtain ⟨hle, hen, hng, hfil, -, -⟩ := notify_props env.enabled env.notifyEnv
  have hcw : (watchdog_wait env h).count AnrEvent.callNotify = 0 :=
    wait_count_zero env h _ (fun hh => AnrEvent.noConfusion hh)
      (fun d hh => AnrEvent.noConfusion hh)
  have hgw : (watchdog_wait env h).count AnrEvent.googleCall = 0 :=
    wait_count_zero env h _ (fun hh => AnrEvent.noConfusion hh)
      (fun d hh => AnrEvent.noConfusion hh)
  have hgn : (notify_anr_detected env.enabled env.notifyEnv).count AnrEvent.googleCall = 0 :=
    List.count_eq_zero.mpr hng
  have hmain : sigquit_watchdog_thread_main env h =
      watchdog_wait env h ++ (AnrEvent.sleep 10000 ::
        (notify_anr_detected env.enabled env.notifyEnv ++
          [AnrEvent.googleCall, AnrEvent.sleep 2000000])) := rfl
  rw [hmain]
  have hcnt : (watchdog_wait env h ++ (AnrEvent.sleep 10000 ::
      (notify_anr_detected env.enabled env.notifyEnv ++
        [AnrEvent.googleCall, AnrEvent.sleep 2000000]))).count AnrEvent.callNotify =
      (notify_anr_detected env.enabled env.notifyEnv).count AnrEvent.callNotify := by
    simp [List.count_append, List.count_cons, hcw]
  refine ⟨?_, ?_, ?_, ?_⟩
  · rw [hcnt]; exact hle
  · rw [hcnt]; exact hen
  · simp [List.count_append, List.count_cons, hgw, hgn]
  · rw [hcnt, List.filter_append, wait_filter_nil]
    by_cases hc : (notify_anr_detected env.enabled env.notifyEnv).count AnrEvent.callNotify = 1
    · rw [if_pos hc] at hfil ⊢
      simp [List.filter_cons, List.filter_append, hfil, notifyOrGoogle]
    · rw [if_neg hc] at hfil ⊢
      simp [List.filter_cons, List.filter_append, hfil, notifyOrGoogle]

/-- Instantiation of claim C1 at a concrete input: semaphore strategy,
flag already set, enabled, binding fully resolved. -/
theorem claim_C1_watchdog_cycle_witness :
    ((sigquit_watchdog_thread_main watchdogEnvSem ⟨0, rfl⟩).count AnrEvent.callNotify ≤ 1) ∧
      ((sigquit_watchdog_thread_main watchdogEnvSem ⟨0, rfl⟩).count AnrEvent.callNotify = 1 →
        watchdogEnvSem.enabled = true) ∧
      ((sigquit_watchdog_thread_main watchdogEnvSem ⟨0, rfl⟩).count AnrEvent.googleCall = 1) ∧
      ((sigquit_watchdog_thread_main watchdogEnvSem ⟨0, rfl⟩).filter notifyOrGoogle =
        if (sigquit_watchdog_thread_main watchdogEnvSem ⟨0, rfl⟩).count AnrEvent.callNotify = 1
        then [AnrEvent.callNotify, AnrEvent.googleCall] else [AnrEvent.googleCall]) :=
  claim_C1_watchdog_cycle watchdogEnvSem ⟨0, rfl⟩

/-- Claim C5: when the semaphore was unavailable
(should_wait_for_semaphore = false) or sem_wait fails, the watchdog runs
the polling loop; once the flag is set (true at poll check tset) the loop
performs at most tset hundred-millisecond sleeps, i.e. it exits at the
first check at which the flag reads true; the rest of the cycle uses only
the bounded 10ms settle and 2s grace sleeps, performs no further waiting,
and the thread then exits. -/
theorem claim_C5_poll_bounded (env : WatchdogEnv) (tset : Nat)
    (hset : env.flag tset = true)
    (hfb : env.shouldWaitForSemaphore = false ∨ env.semWaitFails = true) :
    ((poll_loop env.flag ⟨tset, hset⟩).length ≤ tset) ∧
      (watchdog_wait env ⟨tset, hset⟩ =
        (if env.shouldWaitForSemaphore then [AnrEvent.semWait] else []) ++
          poll_loop env.flag ⟨tset, hset⟩) ∧
      (∀ d, AnrEvent.sleep d ∈ poll_loop env.flag ⟨tset, hset⟩ → d = 100000) ∧
      (∀ d, AnrEvent.sleep d ∈ watchdog_cycle_rest env → d = 10000 ∨ d = 2000000) ∧
      (AnrEvent.semWait ∉ watchdog_cycle_rest env) ∧
      (sigquit_watchdog_thread_main env ⟨tset, hset⟩ =
        watchdog_wait env ⟨tset, hset⟩ ++ watchdog_cycle_rest env) := by
  obtain ⟨-, -, -, -, hns, hnw⟩ := notify_props env.enabled env.notifyEnv
  refine ⟨?_, ?_, ?_, ?_, ?_, rfl⟩
  · rw [poll_loop, List.length_replicate]
    exact Nat.find_min' _ hset
  · unfold watchdog_wait
    rcases hfb with hw | hs
    · rw [hw]; simp
    · rw [hs]
      split <;> simp
  · intro d hd
    have := List.eq_of_mem_replicate hd
    injection this
  · intro d hd
    unfold watchdog_cycle_rest at hd
    rcases List.mem_cons.mp hd with h1 | h2
    · injection h1 with h1; exact Or.inl h1
    · rcases List.mem_append.mp h2 with h3 | h4
      · exact absurd h3 (hns d)
      · rcases List.mem_cons.mp h4 with h5 | h6
        · exact AnrEvent.noConfusion h5
        · rw [List.mem_singleton] at h6
          injection h6 with h6; exact Or.inr h6
  · intro hd
    unfold watchdog_cycle_rest at hd
    rcases List.mem_cons.mp hd with h1 | h2
    · exact AnrEvent.noConfusion h1
    · rcases List.mem_append.mp h2 with h3 | h4
      · exact hnw h3
      · rcases List.mem_cons.mp h4 with h5 | h6
        · exact AnrEvent.noConfusion h5
        · rw [List.mem_singleton] at h6
          exact AnrEvent.noConfusion h6

/-- Instantiation of claim C5 at a concrete input: semaphore unavailable,
flag set at the first poll check. -/
theorem claim_C5_poll_bounded_witness :
    ((poll_loop watchdogEnvPoll.flag ⟨0, rfl⟩).length ≤ 0) ∧
      (watchdog_wait watchdogEnvPoll ⟨0, rfl⟩ =
        (if watchdogEnvPoll.shouldWaitForSemaphore then [AnrEvent.semWait] else []) ++
          poll_loop watchdogEnvPoll.flag ⟨0, rfl⟩) ∧
      (∀ d, AnrEvent.sleep d ∈ poll_loop watchdogEnvPoll.flag ⟨0, rfl⟩ → d = 100000) ∧
      (∀ d, AnrEvent.sleep d ∈ watchdog_cycle_rest watchdogEnvPoll →
        d = 10000 ∨ d = 2000000) ∧
      (AnrEvent.semWait ∉ watchdog_cycle_rest watchdogEnvPoll) ∧
      (sigquit_watchdog_thread_main watchdogEnvPoll ⟨0, rfl⟩ =
        watchdog_wait watchdogEnvPoll ⟨0, rfl⟩ ++ watchdog_cycle_rest watchdogEnvPoll) :=
  claim_C5_poll_bounded watchdogEnvPoll 0 rfl (Or.inl rfl)

/-- Claim C2: for every prior state, every install environment (including a
null JNIEnv or a null plugin, and any failure of JNI binding resolution or
one-time setup) and any value of the legacy flag, bsg_handler_install_anr
returns true and leaves enabled = true; it never signals failure to the
caller. -/
theorem claim_C2_install_fail_open (st : AnrState) (env : InstallEnv) (b : Bool) :
    (bsg_handler_install_anr st env b).1 = true ∧
      (bsg_handler_install_anr st env b).2.enabled = true :=
  ⟨install_fst_true st env b, install_snd_enabled st env b⟩

/-- Claim C3: for every sequence of install/uninstall calls starting from
the zero-initialized state, enabled ends true iff the most recent call was
an install; the structural one-time setup (install_signal_handler: watchdog
thread creation plus signal-handler installation) runs at most once across
the sequence; and installed never transitions back from true at any step. -/
theorem claim_C3_state_machine (calls : List AnrCall) :
    ((anrRun anrInitState calls).enabled = lastIsInstall calls) ∧
      (anrRun anrInitState calls).setupCalls ≤ 1 ∧
      (∀ st c, st.installed = true → (anrStep st c).installed = true) := by
  refine ⟨?_, ?_, fun st c h => anrStep_installed_mono st c h⟩
  · rw [anrRun_enabled]
    cases calls <;> rfl
  · exact (anrRun_setup_inv calls anrInitState ⟨fun _ => rfl, Nat.zero_le 1⟩).2

/-- Instantiation of claim C3 at concrete inputs: a one-call sequence, and
the installed-monotonicity step at an installed state. -/
theorem claim_C3_state_machine_witness :
    ((anrRun anrInitState [AnrCall.uninstall]).enabled =
        lastIsInstall [AnrCall.uninstall]) ∧
      (anrRun anrInitState [AnrCall.uninstall]).setupCalls ≤ 1 ∧
      (anrStep { anrInitState with installed := true } AnrCall.uninstall).installed =
        true :=
  ⟨(claim_C3_state_machine [AnrCall.uninstall]).1,
   (claim_C3_state_machine [AnrCall.uninstall]).2.1,
   (claim_C3_state_machine [AnrCall.uninstall]).2.2
     { anrInitState with installed := true } AnrCall.uninstall rfl⟩

/-- Claim C4: handle_sigquit re-blocks SIGQUIT and re-installs the saved
original disposition before should_report_anr is set; the flag becomes true
unconditionally and independently of the selected wake strategy; sem_post
is attempted exactly once, a failure adds only a log line, and the handler
never sleeps or waits. -/
theorem claim_C4_handler (w p s : Bool) :
    ((handle_sigquit w p s).2 = true) ∧
      ((handle_sigquit w p s).1.indexOf AnrEvent.reblockSigquit <
        (handle_sigquit w p s).1.indexOf AnrEvent.restoreOriginalHandler) ∧
      ((handle_sigquit w p s).1.indexOf AnrEvent.restoreOriginalHandler <
        (handle_sigquit w p s).1.indexOf AnrEvent.setShouldReport) ∧
      ((handle_sigquit w p s).1.count AnrEvent.semPost = 1) ∧
      (∀ d, AnrEvent.sleep d ∉ (handle_sigquit w p s).1) ∧
      (AnrEvent.semWait ∉ (handle_sigquit w p s).1) ∧
      (handle_sigquit w p s = handle_sigquit true p s) ∧
      (p = true →
        (handle_sigquit w p s).1 =
          [.reblockSigquit, .restoreOriginalHandler, .setShouldReport, .semPost, .log]) := by
  cases w <;> cases p <;> cases s <;>
    refine ⟨by decide, by decide, by decide, by decide, fun d => ?_, by decide,
      by decide, by decide⟩ <;>
    simp [handle_sigquit]

/-- Instantiation of claim C4 at a concrete input: sem_post failing, flag
previously false, semaphore strategy selected. -/
theorem claim_C4_handler_witness :
    ((handle_sigquit true true false).2 = true) ∧
      ((handle_sigquit true true false).1.indexOf AnrEvent.reblockSigquit <
        (handle_sigquit true true false).1.indexOf AnrEvent.restoreOriginalHandler) ∧
      ((handle_sigquit true true false).1.indexOf AnrEvent.restoreOriginalHandler <
        (handle_sigquit true true false).1.indexOf AnrEvent.setShouldReport) ∧
      ((handle_sigquit true true false).1.count AnrEvent.semPost = 1) ∧
      (∀ d, AnrEvent.sleep d ∉ (handle_sigquit true true false).1) ∧
      (AnrEvent.semWait ∉ (handle_sigquit true true false).1) ∧
      (handle_sigquit true true false = handle_sigquit true true false) ∧
      (true = true →
        (handle_sigquit true true false).1 =
          [.reblockSigquit, .restoreOriginalHandler, .setShouldReport, .semPost, .log]) :=
  claim_C4_handler true true false

/-- Claim C6: bsg_handler_uninstall_anr sets enabled to false and changes
no other state (installed, JNI binding, plugin reference, wake strategy,
watchdog thread, signal handler, saved original disposition, setup count);
it is idempotent and a no-op on the never-installed initial state. -/
theorem claim_C6_uninstall_frame (st : AnrState) :
    (bsg_handler_uninstall_anr st).enabled = false ∧
      (bsg_handler_uninstall_anr st).installed = st.installed ∧
      (bsg_handler_uninstall_anr st).bsgJvmSet = st.bsgJvmSet ∧
      (bsg_handler_uninstall_anr st).mthdSet = st.mthdSet ∧
      (bsg_handler_uninstall_anr st).objPluginSet = st.objPluginSet ∧
      (bsg_handler_uninstall_anr st).shouldWaitForSemaphore = st.shouldWaitForSemaphore ∧
      (bsg_handler_uninstall_anr st).watchdogStarted = st.watchdogStarted ∧
      (bsg_handler_uninstall_anr st).sigquitHandlerSet = st.sigquitHandlerSet ∧
      (bsg_handler_uninstall_anr st).originalHandlerSaved = st.originalHandlerSaved ∧
      (bsg_handler_uninstall_anr st).setupCalls = st.setupCalls ∧
      bsg_handler_uninstall_anr (bsg_handler_uninstall_anr st) =
        bsg_handler_uninstall_anr st ∧
      bsg_handler_uninstall_anr anrInitState = anrInitState :=
  ⟨rfl, rfl, rfl, rfl, rfl, rfl, rfl, rfl, rfl, rfl, rfl, rfl⟩

/-- Claim C7: in notify_anr_detected the calling thread is detached iff
this very call performed the attach: attach and detach counts always agree;
when GetEnv reports JNI_OK there is no detach; when GetEnv reports
JNI_EDETACHED and AttachCurrentThread succeeds (with reporting enabled)
there is exactly one attach and exactly one detach and the detach is the
final action of every exit path, including a skipped callback or a callback
that raises an exception. -/
theorem claim_C7_attach_detach (enabled : Bool) (env : NotifyEnv) :
    ((notify_anr_detected enabled env).count AnrEvent.detach =
        (notify_anr_detected enabled env).count AnrEvent.attach) ∧
      (env.getEnvResult = .ok → (notify_anr_detected enabled env).count AnrEvent.detach = 0) ∧
      (enabled = true → env.getEnvResult = .edetached → env.attachOk = true →
        (notify_anr_detected enabled env).count AnrEvent.attach = 1 ∧
          (notify_anr_detected enabled env).count AnrEvent.detach = 1 ∧
          (notify_anr_detected enabled env).getLast? = some AnrEvent.detach) := by
  rcases env with ⟨ge, a, o, m, cb⟩
  cases ge <;> cases a <;> cases o <;> cases m <;> cases cb <;> cases enabled <;> decide

/-- Instantiation of claim C7 at a concrete input: enabled, GetEnv reports
JNI_EDETACHED, attach succeeds, binding resolved, callback present. -/
theorem claim_C7_attach_detach_witness :
    ((notify_anr_detected true notifyEnvA).count AnrEvent.detach =
        (notify_anr_detected true notifyEnvA).count AnrEvent.attach) ∧
      (notifyEnvA.getEnvResult = .ok →
        (notify_anr_detected true notifyEnvA).count AnrEvent.detach = 0) ∧
      (true = true → notifyEnvA.getEnvResult = .edetached → notifyEnvA.attachOk = true →
        (notify_anr_detected true notifyEnvA).count AnrEvent.attach = 1 ∧
          (notify_anr_detected true notifyEnvA).count AnrEvent.detach = 1 ∧
          (notify_anr_detected true notifyEnvA).getLast? = some AnrEvent.detach) :=
  claim_C7_attach_detach true notifyEnvA

end BugsnagAnr

namespace PathBuilder

/-! Low-level lemmas about buffer stores and C string length. -/

theorem getD_set_ne {α : Type} (d c : α) :
    ∀ (l : List α) (i j : Nat), i ≠ j → (l.set i c).getD j d = l.getD j d
  | [], _, _, _ => rfl
  | _ :: _, 0, 0, h => absurd rfl h
  | _ :: _, 0, _ + 1, _ => rfl
  | _ :: _, _ + 1, 0, _ => rfl
  | _ :: l, i + 1, j + 1, h =>
      getD_set_ne d c l i j (fun e => h (by rw [e]))

theorem getD_set_self {α : Type} (d c : α) :
    ∀ (l : List α) (i : Nat), i < l.length → (l.set i c).getD i d = c
  | [], i, h => absurd h (Nat.not_lt_zero i)
  | _ :: _, 0, _ => rfl
  | _ :: l, i + 1, h => getD_set_self d c l i (Nat.lt_of_succ_lt_succ h)

theorem getD_append_left {α : Type} (d : α) :
    ∀ (l l2 : List α) (n : Nat), n < l.length → (l ++ l2).getD n d = l.getD n d
  | [], _, n, h => absurd h (Nat.not_lt_zero n)
  | _ :: _, _, 0, _ => rfl
  | _ :: l, l2, n + 1, h => getD_append_left d l l2 n (Nat.lt_of_succ_lt_succ h)

theorem getD_append_at {α : Type} (d x : α) :
    ∀ l : List α, (l ++ [x]).getD l.length d = x
  | [] => rfl
  | _ :: l => getD_append_at d x l

theorem getD_mem {α : Type} (d : α) :
    ∀ (l : List α) (j : Nat), j < l.length → l.getD j d ∈ l
  | [], j, h => absurd h (Nat.not_lt_zero j)
  | a :: l, 0, _ => List.mem_cons_self a l
  | a :: l, j + 1, h =>
      List.mem_cons_of_mem a (getD_mem d l j (Nat.lt_of_succ_lt_succ h))

theorem mem_take {α : Type} :
    ∀ (l : List α) (n : Nat) (a : α), a ∈ l.take n → a ∈ l
  | [], _, a, h => absurd (by simpa using h) (List.not_mem_nil a)
  | _ :: _, 0, a, h => absurd (by simpa using h) (List.not_mem_nil a)
  | x :: l, n + 1, a, h => by
      rcases List.mem_cons.mp h with h1 | h2
      · exact h1 ▸ List.mem_cons_self x l
      · exact List.mem_cons_of_mem x (mem_take l n a h2)

theorem mem_takeWhile_pred {α : Type} (p : α → Bool) :
    ∀ (l : List α) (a : α), a ∈ l.takeWhile p → p a = true
  | [], a, h => absurd (by simpa using h) (List.not_mem_nil a)
  | x :: l, a, h => by
      cases hx : p x with
      | true =>
          rw [List.takeWhile_cons, if_pos hx] at h
          rcases List.mem_cons.mp h with h1 | h2
          · rw [h1]; exact hx
          · exact mem_takeWhile_pred p l a h2
      | false =>
          rw [List.takeWhile_cons, if_neg (by simp [hx])] at h
          exact absurd (by simpa using h) (List.not_mem_nil a)

theorem mem_writeIdxs :
    ∀ (n off k : Nat), k ∈ writeIdxs off n → off ≤ k ∧ k < off + n
  | 0, _, k, h => absurd (by simpa [writeIdxs] using h) (List.not_mem_nil k)
  | n + 1, off, k, h => by
      rcases List.mem_cons.mp h with h1 | h2
      · subst h1; omega
      · have := mem_writeIdxs n (off + 1) k h2; omega

theorem length_writeChars :
    ∀ (cs p : List Char) (off : Nat), (writeChars p off cs).length = p.length
  | [], _, _ => rfl
  | c :: cs, p, off => by
      show (writeChars (p.set off c) (off + 1) cs).length = p.length
      rw [length_writeChars cs, List.length_set]

theorem getD_writeChars_lt (d : Char) :
    ∀ (cs p : List Char) (off j : Nat), j < off →
      (writeChars p off cs).getD j d = p.getD j d
  | [], _, _, _, _ => rfl
  | c :: cs, p, off, j, h => by
      show (writeChars (p.set off c) (off + 1) cs).getD j d = p.getD j d
      rw [getD_writeChars_lt d cs _ _ j (Nat.lt_succ_of_lt h),
        getD_set_ne d c p off j (by omega)]

theorem getD_writeChars_ge (d : Char) :
    ∀ (cs p : List Char) (off j : Nat), off + cs.length ≤ j →
      (writeChars p off cs).getD j d = p.getD j d
  | [], _, _, _, _ => rfl
  | c :: cs, p, off, j, h => by
      have h2 : off + 1 + cs.length ≤ j := by
        rw [List.length_cons] at h; omega
      show (writeChars (p.set off c) (off + 1) cs).getD j d = p.getD j d
      rw [getD_writeChars_ge d cs _ _ j h2, getD_set_ne d c p off j (by omega)]

theorem getD_writeChars_at (d : Char) :
    ∀ (cs p : List Char) (off i : Nat), i < cs.length → off + cs.length ≤ p.length →
      (writeChars p off cs).getD (off + i) d = cs.getD i d
  | [], _, _, i, hi, _ => absurd hi (Nat.not_lt_zero i)
  | c :: cs, p, off, 0, _, hlen => by
      show (writeChars (p.set off c) (off + 1) cs).getD (off + 0) d = c
      rw [getD_writeChars_lt d cs _ _ _ (by omega)]
      exact getD_set_self d c p off (by rw [List.length_cons] at hlen; omega)
  | c :: cs, p, off, i + 1, hi, hlen => by
      have h1 : i < cs.length := by rw [List.length_cons] at hi; omega
      have h2 : off + 1 + cs.length ≤ (p.set off c).length := by
        rw [List.length_set]; rw [List.length_cons] at hlen; omega
      have h3 := getD_writeChars_at d cs (p.set off c) (off + 1) i h1 h2
      show (writeChars (p.set off c) (off + 1) cs).getD (off + (i + 1)) d = cs.getD i d
      rw [show off + (i + 1) = off + 1 + i by omega]
      exact h3

theorem cstrlen_eq_of :
    ∀ (p : List Char) (n : Nat), n < p.length →
      (∀ j, j < n → p.getD j nullc ≠ nullc) → p.getD n nullc = nullc →
      cstrlen p = n
  | [], n, h, _, _ => absurd h (Nat.not_lt_zero n)
  | c :: p, 0, _, _, hn => by
      show cstrlen (c :: p) = 0
      unfold cstrlen
      rw [if_pos (show c = nullc from hn)]
  | c :: p, n + 1, h, hpre, hn => by
      have hc : c ≠ nullc := hpre 0 (Nat.succ_pos n)
      show cstrlen (c :: p) = n + 1
      unfold cstrlen
      rw [if_neg hc, cstrlen_eq_of p n (Nat.lt_of_succ_lt_succ h)
        (fun j hj => hpre (j + 1) (Nat.succ_lt_succ hj)) hn]

theorem getD_drop (d : Char) :
    ∀ (off : Nat) (p : List Char) (i : Nat),
      (p.drop off).getD i d = p.getD (off + i) d
  | 0, p, i => by rw [Nat.zero_add]; rfl
  | _ + 1, [], _ => rfl
  | off + 1, a :: p, i => by
      show (p.drop off).getD i d = (a :: p).getD (off + 1 + i) d
      rw [getD_drop d off p i, show off + 1 + i = (off + i) + 1 by omega,
        List.getD_cons_succ]

theorem cstrlenFrom_writeChars (p : List Char) (off : Nat) (s : List Char)
    (hs : ∀ c ∈ s, c ≠ nullc) (hlen : off + s.length < p.length) :
    cstrlenFrom (writeChars p off (s ++ [nullc])) off = s.length := by
  have hlen2 : off + (s ++ [nullc]).length ≤ p.length := by
    rw [List.length_append, List.length_singleton]; omega
  unfold cstrlenFrom
  apply cstrlen_eq_of
  · rw [List.length_drop, length_writeChars]; omega
  · intro j hj
    rw [getD_drop, getD_writeChars_at nullc (s ++ [nullc]) p off j
      (by rw [List.length_append, List.length_singleton]; omega) hlen2,
      getD_append_left nullc s [nullc] j hj]
    exact hs _ (getD_mem nullc s j hj)
  · rw [getD_drop, getD_writeChars_at nullc (s ++ [nullc]) p off s.length
      (by rw [List.length_append, List.length_singleton]; omega) hlen2]
    exact getD_append_at nullc nullc s

end PathBuilder

namespace PathBuilder

/-! Lemmas about the decimal rendering and the int64 reduction. -/

theorem decChar_ne_null (d : Nat) : decChar d ≠ nullc := by
  have hr : d % 10 < 10 := Nat.mod_lt d (by norm_num)
  unfold decChar
  generalize hg : d % 10 = r
  rw [hg] at hr
  interval_cases r <;> decide

theorem natDecChars_ne_null (n : Nat) : ∀ c ∈ natDecChars n, c ≠ nullc := by
  intro c hc
  unfold natDecChars at hc
  split at hc
  · rw [List.mem_singleton] at hc
    rw [hc]; decide
  · rw [List.mem_reverse] at hc
    obtain ⟨d, -, rfl⟩ := List.mem_map.mp hc
    exact decChar_ne_null d

theorem int64_chars_ne_null (v : Int) : ∀ c ∈ int64_chars v, c ≠ nullc := by
  intro c hc
  unfold int64_chars at hc
  split at hc
  · rcases List.mem_cons.mp hc with h1 | h2
    · rw [h1]; decide
    · exact natDecChars_ne_null _ c h2
  · exact natDecChars_ne_null _ c hc

theorem natDecChars_length_le (n k : Nat) (hk : 1 ≤ k) (hn : n < 10 ^ k) :
    (natDecChars n).length ≤ k := by
  unfold natDecChars
  split
  · simpa using hk
  · next hn0 =>
    rw [List.length_reverse, List.length_map]
    by_contra hlen
    push_neg at hlen
    have h1 := Nat.base_pow_length_digits_le 10 n (by norm_num) hn0
    have h2 : 10 ^ (k + 1) ≤ 10 ^ (Nat.digits 10 n).length :=
      Nat.pow_le_pow_right (by norm_num) hlen
    have h3 : 10 * 10 ^ k ≤ 10 * n := by
      calc 10 * 10 ^ k = 10 ^ (k + 1) := by ring
      _ ≤ 10 ^ (Nat.digits 10 n).length := h2
      _ ≤ 10 * n := h1
    have h4 : 10 ^ k ≤ n := Nat.le_of_mul_le_mul_left h3 (by norm_num)
    omega

theorem toInt64_bounds (value : Int) :
    -9223372036854775808 ≤ toInt64 value ∧ toInt64 value < 9223372036854775808 := by
  unfold toInt64
  have h0 : (0 : Int) ≤ (value + 2 ^ 63) % 2 ^ 64 :=
    Int.emod_nonneg _ (by norm_num)
  have h1 : (value + 2 ^ 63) % 2 ^ 64 < 2 ^ 64 :=
    Int.emod_lt_of_pos _ (by norm_num)
  have h63 : (2 : Int) ^ 63 = 9223372036854775808 := by norm_num
  have h64 : (2 : Int) ^ 64 = 18446744073709551616 := by norm_num
  rw [h63, h64] at *
  omega

theorem int64_chars_length_le (value : Int) : (int64_chars value).length ≤ 20 := by
  obtain ⟨hlo, hhi⟩ := toInt64_bounds value
  unfold int64_chars
  split
  · next hneg =>
    rw [List.length_cons]
    have hab : (toInt64 value).natAbs ≤ 9223372036854775808 := by omega
    have := natDecChars_length_le (toInt64 value).natAbs 19 (by norm_num) (by
      have : (10 : Nat) ^ 19 = 10000000000000000000 := by norm_num
      omega)
    omega
  · have htn : (toInt64 value).toNat < 9223372036854775808 := by omega
    have := natDecChars_length_le (toInt64 value).toNat 19 (by norm_num) (by
      have : (10 : Nat) ^ 19 = 10000000000000000000 := by norm_num
      omega)
    omega

/-! Lemmas about the builder invariant. -/

theorem inv_cstrlen (g : path_builder) (h : Inv g) : cstrlen g.path = topOff g := by
  obtain ⟨hp, -, -, -, htop, hpre, hnull⟩ := h
  exact cstrlen_eq_of g.path (topOff g) (by rw [hp]; exact htop) hpre hnull

theorem subpath_begin_none (g : path_builder)
    (h : MAX_SUBPATHS - 1 ≤ g.subpath_level ∨ PATH_SIZE ≤ topOff g) :
    subpath_begin g = none := by
  unfold topOff at h
  unfold subpath_begin
  by_cases h1 : MAX_SUBPATHS - 1 ≤ g.subpath_level
  · rw [if_pos h1]
  · rw [if_neg h1, if_pos (by omega)]

theorem subpath_begin_some (g : path_builder) (hInv : Inv g)
    (h99 : g.subpath_level < MAX_SUBPATHS - 1) (h500 : topOff g < PATH_SIZE) :
    ∃ g1 start tr1, subpath_begin g = some (g1, start, tr1) ∧
      g1.path.length = PATH_TOTAL ∧
      g1.subpaths = g.subpaths ∧
      g1.subpath_level = g.subpath_level ∧
      topOff g ≤ start ∧ start ≤ topOff g + 1 ∧ start ≤ PATH_SIZE ∧
      (∀ j, j < start → g1.path.getD j nullc ≠ nullc) ∧
      (∀ k ∈ tr1, k < PATH_TOTAL) := by
  obtain ⟨hp, hsp, hlev, hmono, htop, hpre, hnull⟩ := hInv
  unfold topOff at h500 htop hpre hnull
  unfold subpath_begin
  rw [if_neg (by omega), if_neg (by omega)]
  by_cases hl0 : 0 < g.subpath_level
  · rw [if_pos hl0]
    refine ⟨_, _, _, rfl, ?_, rfl, rfl, Nat.le_succ _, Nat.le_refl _, by
      show g.subpaths.getD g.subpath_level 0 + 1 ≤ PATH_SIZE
      omega, ?_, ?_⟩
    · show (g.path.set (g.subpaths.getD g.subpath_level 0) '.').length = PATH_TOTAL
      rw [List.length_set]; exact hp
    · intro j hj
      rcases Nat.lt_or_ge j (g.subpaths.getD g.subpath_level 0) with hjlt | hjge
      · rw [getD_set_ne nullc '.' g.path _ j (by omega)]
        exact hpre j hjlt
      · have hje : j = g.subpaths.getD g.subpath_level 0 := by omega
        rw [hje, getD_set_self nullc '.' g.path _ (by rw [hp]; omega)]
        decide
    · intro k hk
      rw [List.mem_singleton] at hk
      subst hk
      show g.subpaths.getD g.subpath_level 0 < PATH_TOTAL
      omega
  · rw [if_neg hl0]
    exact ⟨_, _, _, rfl, hp, rfl, rfl, Nat.le_refl _, Nat.le_succ _,
      by show g.subpaths.getD g.subpath_level 0 ≤ PATH_SIZE; omega,
      fun j hj => hpre j hj,
      fun k hk => absurd hk (List.not_mem_nil k)⟩

theorem subpath_write_end_inv (g g1 : path_builder) (start : Nat) (s : List Char)
    (hInv : Inv g)
    (hlen1 : g1.path.length = PATH_TOTAL)
    (hsub : g1.subpaths = g.subpaths)
    (hlev : g1.subpath_level = g.subpath_level)
    (h99 : g.subpath_level < MAX_SUBPATHS - 1)
    (hts : topOff g ≤ start)
    (hpre : ∀ j, j < start → g1.path.getD j nullc ≠ nullc)
    (hs : ∀ c ∈ s, c ≠ nullc)
    (hend : start + s.length ≤ PATH_TOTAL - 1) :
    Inv (subpath_end { g1 with path := writeChars g1.path start (s ++ [nullc]) }
        (start + s.length)) ∧
      topOff (subpath_end { g1 with path := writeChars g1.path start (s ++ [nullc]) }
        (start + s.length)) = start + s.length := by
  obtain ⟨hp, hsp, hlv, hmono, htop, hpreg, hnull⟩ := hInv
  have hPT : PATH_TOTAL = 600 := rfl
  have hMS : MAX_SUBPATHS = 100 := rfl
  have hwlen : (writeChars g1.path start (s ++ [nullc])).length = PATH_TOTAL := by
    rw [length_writeChars]; exact hlen1
  have happlen : start + (s ++ [nullc]).length ≤ g1.path.length := by
    rw [List.length_append, List.length_singleton, hlen1]; omega
  have htopeq :
      topOff (subpath_end { g1 with path := writeChars g1.path start (s ++ [nullc]) }
        (start + s.length)) = start + s.length := by
    show (g1.subpaths.set (g1.subpath_level + 1) (start + s.length)).getD
      (g1.subpath_level + 1) 0 = start + s.length
    apply getD_set_self
    rw [hsub, hsp, hlev]
    omega
  refine ⟨⟨?_, ?_, ?_, ?_, ?_, ?_, ?_⟩, htopeq⟩
  · show ((writeChars g1.path start (s ++ [nullc])).set (start + s.length) nullc).length =
      PATH_TOTAL
    rw [List.length_set]; exact hwlen
  · show (g1.subpaths.set (g1.subpath_level + 1) (start + s.length)).length = MAX_SUBPATHS
    rw [List.length_set, hsub]; exact hsp
  · show g1.subpath_level + 1 < MAX_SUBPATHS
    rw [hlev]; omega
  · show ∀ j < g1.subpath_level + 1 + 1, ∀ i < j + 1,
      (g1.subpaths.set (g1.subpath_level + 1) (start + s.length)).getD i 0 ≤
        (g1.subpaths.set (g1.subpath_level + 1) (start + s.length)).getD j 0
    intro j hj i hi
    rw [hsub, hlev] at *
    rcases Nat.lt_or_ge j (g.subpath_level + 1) with hjlt | hjge
    · rw [getD_set_ne 0 _ g.subpaths _ j (by omega),
        getD_set_ne 0 _ g.subpaths _ i (by omega)]
      exact hmono j hjlt i hi
    · have hje : j = g.subpath_level + 1 := by omega
      subst hje
      rw [getD_set_self 0 _ g.subpaths _ (by rw [hsp]; omega)]
      rcases Nat.lt_or_ge i (g.subpath_level + 1) with hilt | hige
      · rw [getD_set_ne 0 _ g.subpaths _ i (by omega)]
        have h1 : g.subpaths.getD i 0 ≤ g.subpaths.getD g.subpath_level 0 :=
          hmono g.subpath_level (by omega) i (by omega)
        unfold topOff at hts
        omega
      · have hie : i = g.subpath_level + 1 := by omega
        subst hie
        rw [getD_set_self 0 _ g.subpaths _ (by rw [hsp]; omega)]
  · rw [htopeq]; omega
  · rw [htopeq]
    intro j hj
    show ((writeChars g1.path start (s ++ [nullc])).set (start + s.length) nullc).getD
      j nullc ≠ nullc
    rw [getD_set_ne nullc nullc _ _ j (by omega)]
    rcases Nat.lt_or_ge j start with hjlt | hjge
    · rw [getD_writeChars_lt nullc _ _ _ j hjlt]
      exact hpre j hjlt
    · obtain ⟨i, rfl⟩ : ∃ i, j = start + i := ⟨j - start, by omega⟩
      have hi : i < s.length := by omega
      rw [getD_writeChars_at nullc (s ++ [nullc]) g1.path start i
        (by rw [List.length_append, List.length_singleton]; omega) happlen,
        getD_append_left nullc s [nullc] i hi]
      exact hs _ (getD_mem nullc s i hi)
  · rw [htopeq]
    show ((writeChars g1.path start (s ++ [nullc])).set (start + s.length) nullc).getD
      (start + s.length) nullc = nullc
    apply getD_set_self
    rw [hwlen]; omega

end PathBuilder

namespace PathBuilder

/-! Per-operation invariant preservation and store-trace bounds. -/

theorem map_key_inv (key : List Char) (g : path_builder) (hInv : Inv g) :
    Inv (bsg_pb_stack_map_key key g).1 ∧
      ∀ k ∈ (bsg_pb_stack_map_key key g).2, k < PATH_TOTAL := by
  have hPT : PATH_TOTAL = 600 := rfl
  have hPS : PATH_SIZE = 500 := rfl
  by_cases hb : MAX_SUBPATHS - 1 ≤ g.subpath_level ∨ PATH_SIZE ≤ topOff g
  · unfold bsg_pb_stack_map_key
    rw [subpath_begin_none g hb]
    exact ⟨hInv, fun k hk => absurd hk (List.not_mem_nil k)⟩
  · push_neg at hb
    obtain ⟨h99, h500⟩ := hb
    obtain ⟨g1, start, tr1, hbeq, hg1len, hg1sub, hg1lev, hts, hts2, hstart500,
      hg1pre, htr1⟩ := subpath_begin_some g hInv h99 h500
    unfold bsg_pb_stack_map_key
    rw [hbeq]
    dsimp only
    have havailne : available_byte_count start ≠ 0 := by
      unfold available_byte_count; omega
    have hstrn : bsg_strncpy_safe g1.path start key (available_byte_count start) =
        writeChars g1.path start
          ((key.takeWhile (fun c => c != nullc)).take (available_byte_count start - 1)
            ++ [nullc]) := by
      unfold bsg_strncpy_safe strncpyChars
      rw [if_neg havailne]
    have hsnn : ∀ c ∈ (key.takeWhile (fun c => c != nullc)).take
        (available_byte_count start - 1), c ≠ nullc := by
      intro c hc
      have h1 := mem_takeWhile_pred _ _ c (mem_take _ _ c hc)
      simpa using h1
    have hslen : ((key.takeWhile (fun c => c != nullc)).take
        (available_byte_count start - 1)).length ≤ available_byte_count start - 1 := by
      rw [List.length_take]
      exact min_le_left _ _
    have havail : available_byte_count start = PATH_TOTAL - start := rfl
    have hend : start + ((key.takeWhile (fun c => c != nullc)).take
        (available_byte_count start - 1)).length ≤ PATH_TOTAL - 1 := by omega
    have hclen : cstrlenFrom
        (bsg_strncpy_safe g1.path start key (available_byte_count start)) start =
        ((key.takeWhile (fun c => c != nullc)).take
          (available_byte_count start - 1)).length := by
      rw [hstrn]
      exact cstrlenFrom_writeChars g1.path start _ hsnn (by rw [hg1len]; omega)
    rw [hclen, hstrn]
    have hmain := subpath_write_end_inv g g1 start
      ((key.takeWhile (fun c => c != nullc)).take (available_byte_count start - 1))
      hInv hg1len hg1sub hg1lev h99 hts hg1pre hsnn hend
    refine ⟨hmain.1, ?_⟩
    intro k hk
    rcases List.mem_append.mp hk with hk1 | hk2
    · rcases List.mem_append.mp hk1 with hk3 | hk4
      · exact htr1 k hk3
      · have htreq : strncpyTrace start key (available_byte_count start) =
            writeIdxs start
              (((key.takeWhile (fun c => c != nullc)).take
                (available_byte_count start - 1) ++ [nullc]).length) := by
          unfold strncpyTrace strncpyChars
          rw [if_neg havailne]
        rw [htreq] at hk4
        have hm := mem_writeIdxs _ _ k hk4
        rw [List.length_append, List.length_singleton] at hm
        omega
    · rw [List.mem_singleton] at hk2
      omega

theorem list_index_inv (index : Int) (g : path_builder) (hInv : Inv g) :
    Inv (bsg_pb_stack_list_index index g).1 ∧
      ∀ k ∈ (bsg_pb_stack_list_index index g).2, k < PATH_TOTAL := by
  have hPT : PATH_TOTAL = 600 := rfl
  have hPS : PATH_SIZE = 500 := rfl
  by_cases hb : MAX_SUBPATHS - 1 ≤ g.subpath_level ∨ PATH_SIZE ≤ topOff g
  · unfold bsg_pb_stack_list_index
    rw [subpath_begin_none g hb]
    exact ⟨hInv, fun k hk => absurd hk (List.not_mem_nil k)⟩
  · push_neg at hb
    obtain ⟨h99, h500⟩ := hb
    obtain ⟨g1, start, tr1, hbeq, hg1len, hg1sub, hg1lev, hts, hts2, hstart500,
      hg1pre, htr1⟩ := subpath_begin_some g hInv h99 h500
    unfold bsg_pb_stack_list_index
    rw [hbeq]
    dsimp only
    have hs := int64_chars_ne_null index
    have hlen20 := int64_chars_length_le index
    have hend : start + (int64_chars index).length ≤ PATH_TOTAL - 1 := by omega
    have hi64 : bsg_int64_to_string index g1.path start =
        writeChars g1.path start (int64_chars index ++ [nullc]) := rfl
    rw [hi64]
    have hmain := subpath_write_end_inv g g1 start (int64_chars index)
      hInv hg1len hg1sub hg1lev h99 hts hg1pre hs hend
    refine ⟨hmain.1, ?_⟩
    intro k hk
    rcases List.mem_append.mp hk with hk1 | hk2
    · rcases List.mem_append.mp hk1 with hk3 | hk4
      · exact htr1 k hk3
      · have hm := mem_writeIdxs _ _ k hk4
        omega
    · rw [List.mem_singleton] at hk2
      omega

theorem new_list_entry_inv (g : path_builder) (hInv : Inv g) :
    Inv (bsg_pb_stack_new_list_entry g).1 ∧
      ∀ k ∈ (bsg_pb_stack_new_list_entry g).2, k < PATH_TOTAL := by
  have hPT : PATH_TOTAL = 600 := rfl
  have hPS : PATH_SIZE = 500 := rfl
  by_cases hb : MAX_SUBPATHS - 1 ≤ g.subpath_level ∨ PATH_SIZE ≤ topOff g
  · unfold bsg_pb_stack_new_list_entry
    rw [subpath_begin_none g hb]
    exact ⟨hInv, fun k hk => absurd hk (List.not_mem_nil k)⟩
  · push_neg at hb
    obtain ⟨h99, h500⟩ := hb
    obtain ⟨g1, start, tr1, hbeq, hg1len, hg1sub, hg1lev, hts, hts2, hstart500,
      hg1pre, htr1⟩ := subpath_begin_some g hInv h99 h500
    unfold bsg_pb_stack_new_list_entry
    rw [hbeq]
    dsimp only
    have hmain := subpath_write_end_inv g g1 start []
      hInv hg1len hg1sub hg1lev h99 hts hg1pre
      (fun c hc => absurd hc (List.not_mem_nil c)) (by simp; omega)
    have hseq : subpath_end g1 start =
        subpath_end { g1 with path := writeChars g1.path start ([] ++ [nullc]) }
          (start + List.length ([] : List Char)) := by
      show subpath_end g1 start =
        subpath_end { g1 with path := g1.path.set start nullc } start
      unfold subpath_end
      rw [List.set_set]
    rw [hseq]
    refine ⟨hmain.1, ?_⟩
    intro k hk
    rcases List.mem_append.mp hk with hk1 | hk2
    · exact htr1 k hk1
    · rw [List.mem_singleton] at hk2
      omega

theorem unstack_inv (g : path_builder) (hInv : Inv g) :
    Inv (bsg_pb_unstack g).1 ∧ ∀ k ∈ (bsg_pb_unstack g).2, k < PATH_TOTAL := by
  obtain ⟨hp, hsp, hlev, hmono, htop, hpre, hnull⟩ := hInv
  unfold bsg_pb_unstack
  by_cases h0 : g.subpath_level = 0
  · rw [if_pos h0]
    exact ⟨⟨hp, hsp, hlev, hmono, htop, hpre, hnull⟩,
      fun k hk => absurd hk (List.not_mem_nil k)⟩
  · rw [if_neg h0]
    dsimp only
    have hL : 1 ≤ g.subpath_level := Nat.one_le_iff_ne_zero.mpr h0
    have hpop : g.subpaths.getD (g.subpath_level - 1) 0 ≤
        g.subpaths.getD g.subpath_level 0 := by
      have hnum : g.subpath_level - 1 < g.subpath_level + 1 := by omega
      exact hmono g.subpath_level (by omega) (g.subpath_level - 1) hnum
    unfold topOff at htop hpre hnull
    constructor
    · refine ⟨?_, hsp, ?_, ?_, ?_, ?_, ?_⟩
      · show (g.path.set (g.subpaths.getD (g.subpath_level - 1) 0) nullc).length =
          PATH_TOTAL
        rw [List.length_set]; exact hp
      · show g.subpath_level - 1 < MAX_SUBPATHS
        omega
      · intro j hj i hi
        have hj2 : j < g.subpath_level - 1 + 1 := hj
        exact hmono j (by omega) i hi
      · show g.subpaths.getD (g.subpath_level - 1) 0 < PATH_TOTAL
        omega
      · intro j hj
        show (g.path.set (g.subpaths.getD (g.subpath_level - 1) 0) nullc).getD
          j nullc ≠ nullc
        have hjlt : j < g.subpaths.getD (g.subpath_level - 1) 0 := hj
        rw [getD_set_ne nullc nullc g.path _ j (by omega)]
        exact hpre j (by omega)
      · show (g.path.set (g.subpaths.getD (g.subpath_level - 1) 0) nullc).getD
          (g.subpaths.getD (g.subpath_level - 1) 0) nullc = nullc
        exact getD_set_self nullc nullc g.path _ (by rw [hp]; omega)
    · intro k hk
      rw [List.mem_singleton] at hk
      subst hk
      omega

theorem reset_inv (g : path_builder) (h1 : g.path.length = PATH_TOTAL)
    (h2 : g.subpaths.length = MAX_SUBPATHS) :
    Inv (bsg_pb_reset g).1 ∧ ∀ k ∈ (bsg_pb_reset g).2, k < PATH_TOTAL := by
  have hPT : PATH_TOTAL = 600 := rfl
  have hMS : MAX_SUBPATHS = 100 := rfl
  have htop0 : (g.subpaths.set 0 0).getD 0 0 = 0 :=
    getD_set_self 0 0 g.subpaths 0 (by omega)
  unfold bsg_pb_reset Inv topOff
  dsimp only
  constructor
  · refine ⟨?_, ?_, by omega, ?_, ?_, ?_, ?_⟩
    · show (g.path.set 0 nullc).length = PATH_TOTAL
      rw [List.length_set]; exact h1
    · show (g.subpaths.set 0 0).length = MAX_SUBPATHS
      rw [List.length_set]; exact h2
    · intro j hj i hi
      have hj0 : j = 0 := by omega
      have hi0 : i = 0 := by omega
      subst hj0; subst hi0
      exact Nat.le_refl _
    · show (g.subpaths.set 0 0).getD 0 0 < PATH_TOTAL
      rw [htop0]; omega
    · intro j hj
      rw [htop0] at hj
      exact absurd hj (by omega)
    · show (g.path.set 0 nullc).getD ((g.subpaths.set 0 0).getD 0 0) nullc = nullc
      rw [htop0]
      exact getD_set_self nullc nullc g.path 0 (by omega)
  · intro k hk
    rw [List.mem_singleton] at hk
    subst hk
    omega

theorem pbStep_inv (g : path_builder) (op : PBOp) (hInv : Inv g) :
    Inv (pbStep g op).1 ∧ ∀ k ∈ (pbStep g op).2, k < PATH_TOTAL := by
  cases op with
  | map_key k => exact map_key_inv k g hInv
  | list_index i => exact list_index_inv i g hInv
  | new_list_entry => exact new_list_entry_inv g hInv
  | unstack => exact unstack_inv g hInv
  | reset => exact reset_inv g hInv.1 hInv.2.1

theorem pbRun_inv (ops : List PBOp) : ∀ g, Inv g →
    Inv (pbRun g ops).1 ∧ ∀ k ∈ (pbRun g ops).2, k < PATH_TOTAL := by
  induction ops with
  | nil =>
    intro g h
    exact ⟨h, fun k hk => absurd hk (List.not_mem_nil k)⟩
  | cons op ops ih =>
    intro g h
    have h1 := pbStep_inv g op h
    have h2 := ih (pbStep g op).1 h1.1
    refine ⟨h2.1, ?_⟩
    intro k hk
    simp only [pbRun] at hk
    rcases List.mem_append.mp hk with hk1 | hk2
    · exact h1.2 k hk1
    · exact h2.2 k hk2

theorem inv_pbResetState : Inv pbResetState :=
  (reset_inv g_path_zero (by rw [g_path_zero]; exact List.length_replicate _ _)
    (by rw [g_path_zero]; exact List.length_replicate _ _)).1

theorem pbStep_boundary_noop (g : path_builder) (op : PBOp)
    (hpush : isPush op = true)
    (hbound : MAX_SUBPATHS - 1 ≤ g.subpath_level ∨ PATH_SIZE ≤ topOff g) :
    pbStep g op = (g, []) := by
  have hb := subpath_begin_none g hbound
  cases op with
  | map_key k =>
      show bsg_pb_stack_map_key k g = (g, [])
      unfold bsg_pb_stack_map_key
      rw [hb]
  | list_index i =>
      show bsg_pb_stack_list_index i g = (g, [])
      unfold bsg_pb_stack_list_index
      rw [hb]
  | new_list_entry =>
      show bsg_pb_stack_new_list_entry g = (g, [])
      unfold bsg_pb_stack_new_list_entry
      rw [hb]
  | unstack => simp [isPush] at hpush
  | reset => simp [isPush] at hpush

end PathBuilder

namespace PathBuilder

/-- Claim C8 (amended): a push operation attempted when the segment stack
is full (subpath_level has reached MAX_SUBPATHS - 1) or when the stored
path has already reached PATH_SIZE characters is a no-op on the builder
state; and for every operation sequence from the reset state the stored
path remains null-terminated within the buffer and every store lands
inside the fixed PATH_SIZE + PATH_SIZE_PADDING buffer. -/
theorem claim_C8_pb_no_overflow :
    (∀ g op, Inv g → isPush op = true →
        MAX_SUBPATHS - 1 ≤ g.subpath_level ∨ PATH_SIZE ≤ cstrlen g.path →
        pbStep g op = (g, [])) ∧
      (∀ ops : List PBOp,
        cstrlen (pbRun pbResetState ops).1.path <
            (pbRun pbResetState ops).1.path.length ∧
          (pbRun pbResetState ops).1.path.getD
            (cstrlen (pbRun pbResetState ops).1.path) nullc = nullc ∧
          (pbRun pbResetState ops).1.path.length = PATH_TOTAL ∧
          ∀ k ∈ (pbRun pbResetState ops).2, k < PATH_TOTAL) := by
  constructor
  · intro g op hInv hpush hbound
    apply pbStep_boundary_noop g op hpush
    rw [inv_cstrlen g hInv] at hbound
    exact hbound
  · intro ops
    have h := pbRun_inv ops pbResetState inv_pbResetState
    have hcl := inv_cstrlen _ h.1
    obtain ⟨hp, -, -, -, htop, -, hnull⟩ := h.1
    refine ⟨?_, ?_, hp, h.2⟩
    · rw [hcl, hp]; exact htop
    · rw [hcl]; exact hnull

/-- Instantiation of claim C8 at concrete inputs: a push on a well-formed
state already at PATH_SIZE is rejected, and a one-operation run from reset
stays null-terminated with in-bounds stores. -/
theorem claim_C8_pb_no_overflow_witness :
    pbStep pbFullState (PBOp.map_key ['x']) = (pbFullState, []) ∧
      (cstrlen (pbRun pbResetState [PBOp.new_list_entry]).1.path <
          (pbRun pbResetState [PBOp.new_list_entry]).1.path.length ∧
        (pbRun pbResetState [PBOp.new_list_entry]).1.path.getD
          (cstrlen (pbRun pbResetState [PBOp.new_list_entry]).1.path) nullc = nullc ∧
        (pbRun pbResetState [PBOp.new_list_entry]).1.path.length = PATH_TOTAL ∧
        ∀ k ∈ (pbRun pbResetState [PBOp.new_list_entry]).2, k < PATH_TOTAL) :=
  ⟨claim_C8_pb_no_overflow.1 pbFullState (PBOp.map_key ['x']) (by decide) rfl
      (Or.inr (by decide)),
    claim_C8_pb_no_overflow.2 [PBOp.new_list_entry]⟩

/-- Counterexample to claim C8 as stated: from the reset state, pushing a
501-character map key is an operation that exceeds the configured path
capacity (the stored path ends up longer than PATH_SIZE), yet it is not a
no-op on the builder state.  The code only rejects a push whose start
offset has already reached PATH_SIZE; a push starting below PATH_SIZE may
run past it into the padding region. -/
theorem claim_C8_counterexample :
    PATH_SIZE <
        cstrlen (bsg_pb_stack_map_key (List.replicate 501 'c') pbResetState).1.path ∧
      (bsg_pb_stack_map_key (List.replicate 501 'c') pbResetState).1 ≠ pbResetState := by
  decide

/-- Claim C9: starting from bsg_pb_reset, pushing map key "a" then list
index 0 makes bsg_pb_path return "a.0"; a subsequent bsg_pb_unstack makes
it return "a". -/
theorem claim_C9_example_paths :
    bsg_pb_path (bsg_pb_stack_list_index 0
        (bsg_pb_stack_map_key ['a'] pbResetState).1).1 = ['a', '.', '0'] ∧
      bsg_pb_path (bsg_pb_unstack (bsg_pb_stack_list_index 0
        (bsg_pb_stack_map_key ['a'] pbResetState).1).1).1 = ['a'] := by
  decide

/-- Claim C10: after bsg_pb_reset, every operation sequence keeps
subpath_level within [0, MAX_SUBPATHS - 1] and keeps
subpaths[subpath_level] pointing exactly at the terminating null byte of
the current path string (the stored offset equals the strlen of the path,
the byte there is null, and every byte before it is non-null); and
bsg_pb_unstack on an empty stack (subpath_level = 0) leaves the builder
state completely unchanged. -/
theorem claim_C10_pb_invariant :
    (∀ ops : List PBOp,
        (pbRun pbResetState ops).1.subpath_level ≤ MAX_SUBPATHS - 1 ∧
          cstrlen (pbRun pbResetState ops).1.path =
            topOff (pbRun pbResetState ops).1 ∧
          (pbRun pbResetState ops).1.path.getD
            (topOff (pbRun pbResetState ops).1) nullc = nullc ∧
          (∀ j < topOff (pbRun pbResetState ops).1,
            (pbRun pbResetState ops).1.path.getD j nullc ≠ nullc)) ∧
      (∀ g : path_builder, g.subpath_level = 0 → bsg_pb_unstack g = (g, [])) := by
  constructor
  · intro ops
    have h := pbRun_inv ops pbResetState inv_pbResetState
    have hcl := inv_cstrlen _ h.1
    obtain ⟨-, -, hlev, -, -, hpre, hnull⟩ := h.1
    have hMS : MAX_SUBPATHS = 100 := rfl
    exact ⟨by omega, hcl, hnull, hpre⟩
  · intro g h0
    unfold bsg_pb_unstack
    rw [if_pos h0]

/-- Instantiation of claim C10 at concrete inputs: the empty operation
sequence, and bsg_pb_unstack on the freshly reset state. -/
theorem claim_C10_pb_invariant_witness :
    ((pbRun pbResetState []).1.subpath_level ≤ MAX_SUBPATHS - 1 ∧
        cstrlen (pbRun pbResetState []).1.path = topOff (pbRun pbResetState []).1 ∧
        (pbRun pbResetState []).1.path.getD
          (topOff (pbRun pbResetState []).1) nullc = nullc ∧
        (∀ j < topOff (pbRun pbResetState []).1,
          (pbRun pbResetState []).1.path.getD j nullc ≠ nullc)) ∧
      bsg_pb_unstack pbResetState = (pbResetState, []) :=
  ⟨claim_C10_pb_invariant.1 [], claim_C10_pb_invariant.2 pbResetState rfl⟩

end PathBuilder
